/-
  Verification of the KWin DRM backend's GPU output-negotiation engine
  (drm_gpu.cpp, class DrmGpu).

  The development shallowly embeds the negotiation, lease, timestamp and
  capability logic of DrmGpu as pure Lean functions and proves the spec's
  claims about them.  Hardware interactions (drmModeAtomicCommit test
  commits, drmModeCreateLease, clock_gettime, plane/crtc init results)
  are modelled as explicit oracle parameters: the C++ code only branches
  on their results, so every such call site becomes a function argument.

  C++ objects (DrmConnector, DrmCrtc, DrmPipeline, ...) are embedded as
  structures carrying exactly the fields the verified code paths read.
  Pointer identity in the C++ (QVector::removeOne, contains) becomes
  structural equality here; kernel object ids are unique per device, so
  where a claim needs the pointer/value distinction we carry explicit
  Nodup hypotheses on the id projections.
-/
import Mathlib

set_option linter.unusedVariables false

/-! ### Data model: hardware objects (drm_gpu.cpp / DrmGpu members)

A DrmConnector as read by DrmGpu::findWorkingCombination and
DrmGpu::updateOutputs: its kernel object id, its encoder id list
(DrmConnector::encoders) and the current value of its CrtcId property
(getProp(DrmConnector::PropertyIndex::CrtcId)->current()), which is the
kernel's hint for the CRTC the connector is currently routed through. -/
structure Connector where
  id : Nat
  encoders : List Nat
  crtcHint : Nat
deriving DecidableEq, Repr

/-- A DrmCrtc as read by the negotiation search: only its kernel object id
is inspected (DrmCrtc::id). -/
structure Crtc where
  id : Nat
deriving DecidableEq, Repr

/-- A DrmPipeline hypothesis: the binding of one connector to one CRTC,
as created by "new DrmPipeline(this, connector, crtc)" inside
DrmGpu::findWorkingCombination. -/
structure Pipeline where
  connector : Connector
  crtc : Crtc
deriving DecidableEq, Repr

/-! ### DrmGpu::findWorkingCombination -/

/-- The early-return loop shape of findWorkingCombination:
"if (auto workingPipelines = recurse(crtc); !workingPipelines.isEmpty())
 return workingPipelines;" — the first branch producing a non-empty
result is returned, later branches are never tried. -/
def firstNonEmpty (f : α → List β) : List α → List β
  | [] => []
  | a :: l => if (f a).isEmpty then firstNonEmpty f l else f a

/-- The std::sort call in findWorkingCombination (atomic mode only): the
comparator orders c1 before c2 exactly when c1 is the CRTC named by the
connector's CrtcId property, so the hinted CRTC moves to the front.
std::sort leaves the relative order of the remaining CRTCs unspecified;
we model the stable partition (matching CRTCs first, others in original
order), one of the permutations std::sort may produce. -/
def hintSort (conn : Connector) (crtcs : List Crtc) : List Crtc :=
  crtcs.filter (fun c => conn.crtcHint == c.id) ++
    crtcs.filter (fun c => !(conn.crtcHint == c.id))

/-- DrmGpu::findWorkingCombination, fuelled form.  The C++ recursion
consumes one connector per level, so "fuel = number of connectors" makes
the recursion structural; findWorkingCombination below instantiates the
fuel that way and the fuel-exhausted branch is then unreachable.

commit is the oracle for DrmGpu::commitCombination's test commit
(DrmPipeline::commitPipelines(pipelines, CommitMode::Test)); the C++
code only branches on its boolean outcome.  The encoder loop fetches
drmModeGetEncoder but never reads the result, so each encoder iteration
runs an identical CRTC loop. -/
def fwcAux (commit : List Pipeline → Bool) (atomic : Bool) :
    Nat → List Connector → List Pipeline → List Crtc → List Pipeline
  | _, [], pipelines, _ =>
    if pipelines.isEmpty || commit pipelines then pipelines else []
  | _, _ :: _, pipelines, [] =>
    if pipelines.isEmpty || commit pipelines then pipelines else []
  | 0, _ :: _, _, _ :: _ => []
  | fuel + 1, conn :: rest, pipelines, c :: cs =>
    let sorted := if atomic then hintSort conn (c :: cs) else c :: cs
    firstNonEmpty
      (fun _ => firstNonEmpty
        (fun crtc =>
          fwcAux commit atomic fuel rest (pipelines ++ [⟨conn, crtc⟩]) (sorted.erase crtc))
        sorted)
      conn.encoders

/-- DrmGpu::findWorkingCombination(pipelines, connectors, crtcs). -/
def findWorkingCombination (commit : List Pipeline → Bool) (atomic : Bool)
    (pipelines : List Pipeline) (connectors : List Connector) (crtcs : List Crtc) :
    List Pipeline :=
  fwcAux commit atomic connectors.length connectors pipelines crtcs

/-! ### DrmGpu::updateOutputs — negotiation phase (stash, lease exclusion,
search, rollback).  The earlier hot-plug reconciliation of updateOutputs
only computes the inputs of this phase (the connected-connector list),
so the model takes those inputs as parameters. -/

/-- A DrmOutput as seen by the negotiation phase of updateOutputs: its
identity and the pipeline it currently owns (output->pipeline()). -/
structure DrmOutputM where
  id : Nat
  pipeline : Pipeline
deriving DecidableEq, Repr

/-- A DrmLeaseOutput as seen by updateOutputs: its pipeline and whether
it currently holds an active lease (output->lease() non-null). -/
structure LeaseOutputM where
  pipeline : Pipeline
  hasLease : Bool
deriving DecidableEq, Repr

/-- The repeated m_pipelines.removeOne(...) calls of updateOutputs: each
stashed or lease-owned pipeline is erased (first occurrence) from the
device pipeline list, in loop order. -/
def removePipelines (pipelines : List Pipeline) (toRemove : List Pipeline) : List Pipeline :=
  toRemove.foldl (fun ps p => ps.erase p) pipelines

/-- The std::sort over connectedConnectors in updateOutputs (atomic mode):
connectors already routed to a CRTC (CrtcId property, compared with >)
come first.  std::sort is unstable; we model an insertion sort by the
same comparator, one of its admissible outcomes. -/
def insertByHintDesc (c : Connector) : List Connector → List Connector
  | [] => [c]
  | d :: ds => if d.crtcHint < c.crtcHint then c :: d :: ds else d :: insertByHintDesc c ds

/-- Sort of the connected connectors by CrtcId property, descending. -/
def sortConnectorsDesc (conns : List Connector) : List Connector :=
  conns.foldr insertByHintDesc []

/-- The "don't touch resources that are leased" loop of updateOutputs:
for each lease output, if it holds a lease its pipeline's connector and
CRTC are removed from the search lists; otherwise its pipeline is
removed from the device pipeline list (it will be re-negotiated). -/
def excludeLeased (leaseOutputs : List LeaseOutputM)
    (acc : List Connector × List Crtc × List Pipeline) :
    List Connector × List Crtc × List Pipeline :=
  leaseOutputs.foldl
    (fun acc lo =>
      if lo.hasLease then
        (acc.1.erase lo.pipeline.connector, acc.2.1.erase lo.pipeline.crtc, acc.2.2)
      else
        (acc.1, acc.2.1, acc.2.2.erase lo.pipeline))
    acc

/-- The connector list handed to findWorkingCombination by updateOutputs. -/
def searchConnectors (atomic : Bool) (drmOutputs : List DrmOutputM)
    (leaseOutputs : List LeaseOutputM) (pipelines0 : List Pipeline)
    (connectedConnectors : List Connector) (crtcs0 : List Crtc) : List Connector :=
  (excludeLeased leaseOutputs
    (if atomic then sortConnectorsDesc connectedConnectors else connectedConnectors,
     crtcs0,
     removePipelines pipelines0 (drmOutputs.map (·.pipeline)))).1

/-- The CRTC pool handed to findWorkingCombination by updateOutputs. -/
def searchCrtcs (atomic : Bool) (drmOutputs : List DrmOutputM)
    (leaseOutputs : List LeaseOutputM) (pipelines0 : List Pipeline)
    (connectedConnectors : List Connector) (crtcs0 : List Crtc) : List Crtc :=
  (excludeLeased leaseOutputs
    (if atomic then sortConnectorsDesc connectedConnectors else connectedConnectors,
     crtcs0,
     removePipelines pipelines0 (drmOutputs.map (·.pipeline)))).2.1

/-- The device pipeline list after the stash and lease loops (what is
left of m_pipelines right before "m_pipelines << config"). -/
def strippedPipelines (atomic : Bool) (drmOutputs : List DrmOutputM)
    (leaseOutputs : List LeaseOutputM) (pipelines0 : List Pipeline)
    (connectedConnectors : List Connector) (crtcs0 : List Crtc) : List Pipeline :=
  (excludeLeased leaseOutputs
    (if atomic then sortConnectorsDesc connectedConnectors else connectedConnectors,
     crtcs0,
     removePipelines pipelines0 (drmOutputs.map (·.pipeline)))).2.2

/-- The rollback configuration of updateOutputs: every stashed old
pipeline (oldPipelines) followed by every unleased lease output's
pipeline.  oldPipelines is a QMap keyed by output; we iterate it in the
stash order (m_drmOutputs order) — QMap key order is some permutation of
it, which the set-level claims do not distinguish. -/
def rollbackConfig (drmOutputs : List DrmOutputM) (leaseOutputs : List LeaseOutputM) :
    List Pipeline :=
  drmOutputs.map (·.pipeline) ++
    (leaseOutputs.filter (fun lo => !lo.hasLease)).map (·.pipeline)

/-- The negotiation phase of DrmGpu::updateOutputs: stashes the active
outputs' pipelines, excludes leased resources, runs
findWorkingCombination, rolls back to the old configuration if the
search failed while desktop connectors were requested, and finally
appends the accepted configuration to the device pipeline list
("m_pipelines << config").  Returns (new m_pipelines, config). -/
def updatePipelines (commit : List Pipeline → Bool) (atomic : Bool)
    (drmOutputs : List DrmOutputM) (leaseOutputs : List LeaseOutputM)
    (pipelines0 : List Pipeline) (connectedConnectors : List Connector)
    (crtcs0 : List Crtc) : List Pipeline × List Pipeline :=
  let connectors := searchConnectors atomic drmOutputs leaseOutputs pipelines0 connectedConnectors crtcs0
  let crtcs := searchCrtcs atomic drmOutputs leaseOutputs pipelines0 connectedConnectors crtcs0
  let stripped := strippedPipelines atomic drmOutputs leaseOutputs pipelines0 connectedConnectors crtcs0
  let config := findWorkingCombination commit atomic [] connectors crtcs
  let config2 :=
    if config.isEmpty && !connectors.isEmpty then rollbackConfig drmOutputs leaseOutputs
    else config
  (stripped ++ config2, config2)

/-! ### DrmGpu::handleLeaseRequest -/

/-- A DrmLeaseOutput as seen by handleLeaseRequest: the id of its
connector, its current lease (lessee id if active), and the hardware
object ids (connector, CRTC, plane) that addLeaseObjects contributes. -/
structure LeaseOutputL where
  connectorId : Nat
  lease : Option Nat
  objects : List Nat
deriving DecidableEq, Repr

/-- Result of a lease request: leaseRequest->deny() or
leaseRequest->grant(fd, lesseeId). -/
inductive LeaseResponse where
  | denied : LeaseResponse
  | granted : Nat → Nat → LeaseResponse
deriving DecidableEq, Repr

/-- The filter loop of handleLeaseRequest: a requested connector is used
only if it is a known lease output (m_leaseOutputs.contains) that holds
no active lease (!output->lease()). -/
def leaseSelected (leaseOutputs requested : List LeaseOutputL) : List LeaseOutputL :=
  requested.filter (fun o => leaseOutputs.contains o && o.lease.isNone)

/-- The object-id accumulation of handleLeaseRequest: each selected
output appends its hardware object ids (output->addLeaseObjects(objects)). -/
def leaseObjects (selected : List LeaseOutputL) : List Nat :=
  selected.foldl (fun acc o => acc ++ o.objects) []

/-- DrmGpu::handleLeaseRequest.  kernelLease is the oracle for
drmModeCreateLease over the collected object ids: none models a
negative fd (failure), some (fd, lesseeId) models success.  On failure
the request is denied and no output is touched; on success the request
is granted and every selected output is marked leased with the lessee
id (output->leased(leaseRequest)). -/
def handleLeaseRequest (leaseOutputs : List LeaseOutputL)
    (kernelLease : List Nat → Option (Nat × Nat)) (requested : List LeaseOutputL) :
    LeaseResponse × List LeaseOutputL :=
  let selected := leaseSelected leaseOutputs requested
  match kernelLease (leaseObjects selected) with
  | none => (LeaseResponse.denied, leaseOutputs)
  | some (fd, lesseeId) =>
    (LeaseResponse.granted fd lesseeId,
     leaseOutputs.map (fun o =>
       if selected.contains o then { o with lease := some lesseeId } else o))

/-! ### Timestamps (convertTimestamp, pageFlipHandler) -/

/-- A struct timespec: tv_sec (time_t) and tv_nsec (long), both signed
64-bit in the modelled environment; values are exact integers here. -/
structure Timespec where
  sec : Int
  nsec : Int
deriving DecidableEq, Repr

/-- convertTimestamp(const timespec &): seconds plus nanoseconds,
expressed in nanoseconds (std::chrono::seconds + std::chrono::nanoseconds). -/
def convertTimestamp (ts : Timespec) : Int :=
  ts.sec * 1000000000 + ts.nsec

/-- convertTimestamp(sourceClock, targetClock, timestamp).  clockNow is
the oracle for clock_gettime on a clock id; the identical-clock branch
returns before any sampling, so the result there cannot depend on it. -/
def convertTimestampClocks (clockNow : Nat → Timespec) (sourceClock targetClock : Nat)
    (timestamp : Timespec) : Int :=
  if sourceClock = targetClock then
    convertTimestamp timestamp
  else
    let delta := convertTimestamp (clockNow sourceClock) - convertTimestamp timestamp
    convertTimestamp (clockNow targetClock) - delta

/-- CLOCK_MONOTONIC (linux clock id). -/
def CLOCK_MONOTONIC : Nat := 1

/-- pageFlipHandler(fd, frame, sec, usec, data).  backendFound and
gpuFound model the kwinApp()->platform() / findGpuByFd lookups;
gpuOutputs and output model the gpu->outputs().contains(output) check;
steadyNow models std::chrono::steady_clock::now().  sec and usec are
the kernel's unsigned 32-bit event fields; "usec * 1000" is unsigned
int arithmetic (mod 2^32) before widening to long.  Returns the
timestamp delivered to RenderLoopPrivate::notifyFrameCompleted, or none
on the early-return paths (no notification). -/
def pageFlipHandler (backendFound gpuFound : Bool) (gpuOutputs : List Nat) (output : Nat)
    (clockNow : Nat → Timespec) (steadyNow : Int) (presentationClock : Nat)
    (sec usec : Nat) : Option Int :=
  if !backendFound then none
  else if !gpuFound then none
  else if !(gpuOutputs.contains output) then none
  else
    let timestamp := convertTimestampClocks clockNow presentationClock CLOCK_MONOTONIC
      ⟨Int.ofNat (sec % 2 ^ 32), Int.ofNat (usec % 2 ^ 32 * 1000 % 2 ^ 32)⟩
    some (if timestamp = 0 then steadyNow else timestamp)

/-! ### DrmGpu::isFormatSupported -/

/-- DrmPlane::TypeIndex. -/
inductive PlaneType where
  | Primary : PlaneType
  | Cursor : PlaneType
  | Overlay : PlaneType
deriving DecidableEq, Repr

/-- A DrmPlane with the fields DrmGpu reads: kernel id, type
(DrmPlane::type()), supported formats (DrmPlane::formats()), the CRTC
inventory indices it can drive (DrmPlane::isCrtcSupported(i)), and the
current value of its CrtcId property. -/
structure DrmPlane where
  id : Nat
  planeType : PlaneType
  formats : List Nat
  supportedCrtcIndices : List Nat
  crtcPropCurrent : Nat
deriving DecidableEq, Repr

/-- DRM_FORMAT_XRGB8888, fourcc code of X R 2 4. -/
def DRM_FORMAT_XRGB8888 : Nat := 0x34325258

/-- DRM_FORMAT_ARGB8888, fourcc code of A R 2 4. -/
def DRM_FORMAT_ARGB8888 : Nat := 0x34325241

/-- DrmGpu::isFormatSupported(drmFormat): in legacy mode only XRGB8888
and ARGB8888; in atomic mode the format must be supported by every
primary plane (the loop returns false at the first primary plane whose
format list misses it, true otherwise). -/
def isFormatSupported (atomicModeSetting : Bool) (planes : List DrmPlane)
    (drmFormat : Nat) : Bool :=
  if !atomicModeSetting then
    drmFormat == DRM_FORMAT_XRGB8888 || drmFormat == DRM_FORMAT_ARGB8888
  else
    planes.all (fun plane =>
      !(plane.planeType == PlaneType.Primary) || plane.formats.contains drmFormat)

/-! ### DrmGpu::initDrmResources -/

/-- The environment initDrmResources probes: whether
drmSetClientCap(DRM_CLIENT_CAP_ATOMIC, 1) succeeded, the plane list
returned by drmModeGetPlaneResources (none when the query fails; each
entry carries the DrmPlane::init() outcome for that plane), the CRTC id
list of drmModeGetResources (none when it fails), and the DrmCrtc::init()
outcome per CRTC id. -/
structure DrmResourcesEnv where
  atomicCapOk : Bool
  planeResources : Option (List (Bool × DrmPlane))
  resources : Option (List Nat)
  crtcInitOk : Nat → Bool

/-- The planes whose DrmPlane::init() succeeded, in discovery order
(the "m_planes << p" accumulation). -/
def survivingPlanes (planeResources : Option (List (Bool × DrmPlane))) : List DrmPlane :=
  (planeResources.getD []).filterMap (fun s => if s.1 then some s.2 else none)

/-- The first phase of initDrmResources: m_atomicModeSetting and
m_planes.  Atomic mode is enabled exactly when the client capability was
granted, plane resources could be queried and at least one plane
initialized; every other path logs a fallback and clears the flag. -/
def initPlanes (env : DrmResourcesEnv) : Bool × List DrmPlane :=
  if env.atomicCapOk then
    match env.planeResources with
    | some specs =>
      let planes := survivingPlanes (some specs)
      if planes.isEmpty then (false, planes) else (true, planes)
    | none => (false, [])
  else (false, [])

/-- The primary-plane scan of initDrmResources for one CRTC: walk the
remaining planes; each primary plane supporting the CRTC index
overwrites the candidate, and the scan stops early at one whose CrtcId
property already names this CRTC.  Result: the first
already-bound matching plane if any, else the last matching plane. -/
def findPrimaryPlane (crtcId crtcIndex : Nat) : List DrmPlane → Option DrmPlane
  | [] => none
  | p :: ps =>
    if p.planeType == PlaneType.Primary && p.supportedCrtcIndices.contains crtcIndex then
      if p.crtcPropCurrent == crtcId then some p
      else
        match findPrimaryPlane crtcId crtcIndex ps with
        | some q => some q
        | none => some p
    else findPrimaryPlane crtcId crtcIndex ps

/-- A DrmCrtc as built by initDrmResources: kernel id, inventory index
(resources->crtcs position) and the primary plane handed to its
constructor. -/
structure DrmCrtcM where
  id : Nat
  index : Nat
  primary : Option DrmPlane
deriving DecidableEq, Repr

/-- The CRTC loop of initDrmResources: for each CRTC id (with its
inventory index), match a primary plane from the remaining plane pool.
In atomic mode a CRTC with no matching primary plane is skipped
("continue") — the atomic flag is not touched.  Otherwise the matched
plane is consumed (planes.removeOne(primary); a null primary removes
nothing) and the CRTC is kept when DrmCrtc::init() succeeds. -/
def buildCrtcs (atomic : Bool) (crtcInitOk : Nat → Bool) :
    Nat → List Nat → List DrmPlane → List DrmCrtcM
  | _, [], _ => []
  | i, crtcId :: rest, planes =>
    let primary := findPrimaryPlane crtcId i planes
    if atomic && primary.isNone then
      buildCrtcs atomic crtcInitOk (i + 1) rest planes
    else
      let planesLeft := match primary with
        | some p => planes.erase p
        | none => planes
      if crtcInitOk crtcId then
        ⟨crtcId, i, primary⟩ :: buildCrtcs atomic crtcInitOk (i + 1) rest planesLeft
      else
        buildCrtcs atomic crtcInitOk (i + 1) rest planesLeft

/-- DrmGpu::initDrmResources: returns (m_atomicModeSetting, m_planes,
m_crtcs).  The flag is decided entirely by the plane phase; if
drmModeGetResources fails the function returns with no CRTCs but the
flag keeps whatever the plane phase decided.  The flag is written
nowhere else in DrmGpu (initDrmResources runs once, from the
constructor), so this value is the device-lifetime value. -/
def initDrmResources (env : DrmResourcesEnv) : Bool × List DrmPlane × List DrmCrtcM :=
  let planePhase := initPlanes env
  match env.resources with
  | none => (planePhase.1, planePhase.2, [])
  | some crtcIds =>
    (planePhase.1, planePhase.2, buildCrtcs planePhase.1 env.crtcInitOk 0 crtcIds planePhase.2)

/-! ### Claim C8 — identical-clock timestamp conversion -/

/-- C8: for every timestamp (seconds, nanoseconds), timestamp conversion
with identical source and target clock domains is the identity
transform: the result is seconds expressed in nanoseconds plus the
nanosecond field, and it is independent of the clock-sampling oracle
(no clock is sampled on that path). -/
theorem convertTimestamp_same_clock_identity :
    ∀ (clockNow clockNow2 : Nat → Timespec) (clock : Nat) (ts : Timespec),
      convertTimestampClocks clockNow clock clock ts = ts.sec * 1000000000 + ts.nsec ∧
      convertTimestampClocks clockNow clock clock ts =
        convertTimestampClocks clockNow2 clock clock ts := by
  intro clockNow clockNow2 clock ts
  constructor <;> simp [convertTimestampClocks, convertTimestamp]

/-! ### Claim C9 — zero-timestamp substitution in the page-flip handler -/

/-- C9: for every page-flip completion event whose converted timestamp is
zero, the handler substitutes the current steady-clock time and still
delivers the frame-completed notification (result is some steadyNow,
not none). -/
theorem pageFlipHandler_zero_timestamp_substituted
    (gpuOutputs : List Nat) (output : Nat) (clockNow : Nat → Timespec) (steadyNow : Int)
    (presentationClock : Nat) (sec usec : Nat)
    (hout : gpuOutputs.contains output = true)
    (hzero : convertTimestampClocks clockNow presentationClock CLOCK_MONOTONIC
        ⟨Int.ofNat (sec % 2 ^ 32), Int.ofNat (usec % 2 ^ 32 * 1000 % 2 ^ 32)⟩ = 0) :
    pageFlipHandler true true gpuOutputs output clockNow steadyNow presentationClock sec usec
      = some steadyNow := by
  simp only [pageFlipHandler]
  rw [hout, hzero]
  simp

/-- Witness for C9: a concrete event on the monotonic clock with a zero
hardware timestamp is delivered with the substituted steady-clock time. -/
theorem pageFlipHandler_zero_timestamp_substituted_witness :
    pageFlipHandler true true [5] 5 (fun _ => ⟨0, 0⟩) 424242 CLOCK_MONOTONIC 0 0
      = some 424242 :=
  pageFlipHandler_zero_timestamp_substituted [5] 5 (fun _ => ⟨0, 0⟩) 424242
    CLOCK_MONOTONIC 0 0 (by decide) (by decide)

/-! ### Claim C10 — isFormatSupported -/

/-- C10: in legacy mode isFormatSupported accepts exactly XRGB8888 and
ARGB8888; in atomic mode it accepts exactly the formats contained in
every primary plane's format set, and with no primary planes every
format is accepted. -/
theorem isFormatSupported_spec :
    ∀ (planes : List DrmPlane) (drmFormat : Nat),
      (isFormatSupported false planes drmFormat = true ↔
        drmFormat = DRM_FORMAT_XRGB8888 ∨ drmFormat = DRM_FORMAT_ARGB8888) ∧
      (isFormatSupported true planes drmFormat = true ↔
        ∀ p ∈ planes, p.planeType = PlaneType.Primary → drmFormat ∈ p.formats) ∧
      ((∀ p ∈ planes, p.planeType ≠ PlaneType.Primary) →
        isFormatSupported true planes drmFormat = true) := by
  intro planes drmFormat
  refine ⟨?_, ?_, ?_⟩
  · simp [isFormatSupported]
  · simp [isFormatSupported, List.all_eq_true, or_iff_not_imp_left]
  · intro h
    simp only [isFormatSupported, Bool.not_true, Bool.false_eq_true, if_false,
      List.all_eq_true]
    intro p hp
    simp [h p hp]

/-- Witness for C10: XRGB8888 is supported in legacy mode. -/
theorem isFormatSupported_spec_witness :
    isFormatSupported false [] DRM_FORMAT_XRGB8888 = true :=
  (isFormatSupported_spec [] DRM_FORMAT_XRGB8888).1.mpr (Or.inl rfl)

/-! ### Claim C4 — atomic-mode fallback at resource discovery

The first three failure conditions (client capability denied, plane
resources unqueryable, no plane initializes) do clear the atomic flag.
The fourth condition of the claim is not what the code does: when
atomic mode is set and a CRTC has no matching primary plane,
initDrmResources merely skips that CRTC ("continue") and the flag stays
true. -/

/-- A primary plane that can only drive CRTC inventory index 0. -/
def planeOnlyCrtc0 : DrmPlane := ⟨31, PlaneType.Primary, [], [0], 10⟩

/-- A discovery environment: atomic capability granted, one plane that
initializes, two CRTCs (ids 10 and 20); every DrmCrtc::init succeeds. -/
def envSecondCrtcUnmatched : DrmResourcesEnv :=
  ⟨true, some [(true, planeOnlyCrtc0)], some [10, 20], fun _ => true⟩

/-- Counterexample to C4 as stated: in envSecondCrtcUnmatched no primary
plane matches CRTC 20 (the only plane cannot drive inventory index 1),
yet the atomic-mode-setting flag stays true; the unmatched CRTC is
simply skipped (only CRTC 10 is created). -/
theorem initDrmResources_unmatched_crtc_keeps_atomic :
    findPrimaryPlane 20 1 (initDrmResources envSecondCrtcUnmatched).2.1 = none ∧
    (initDrmResources envSecondCrtcUnmatched).1 = true ∧
    (initDrmResources envSecondCrtcUnmatched).2.2 = [⟨10, 0, some planeOnlyCrtc0⟩] := by
  decide

/-- C4 (amended): the device's atomic-mode-setting flag is false exactly
when the atomic client-capability request fails, or plane resources
cannot be queried, or no plane object initializes; a CRTC that atomic
mode cannot match with a primary plane is skipped (no CRTC object is
created for it) but does not clear the flag.  The flag is written only
by initDrmResources, which runs once from the constructor, so this
value is permanent for the device's lifetime. -/
theorem initDrmResources_atomic_flag_spec :
    ∀ env : DrmResourcesEnv,
      ((initDrmResources env).1 = false ↔
        env.atomicCapOk = false ∨ env.planeResources = none ∨
          survivingPlanes env.planeResources = []) ∧
      (∀ (crtcInitOk : Nat → Bool) (i crtcId : Nat) (rest : List Nat)
         (planes : List DrmPlane),
        findPrimaryPlane crtcId i planes = none →
        buildCrtcs true crtcInitOk i (crtcId :: rest) planes =
          buildCrtcs true crtcInitOk (i + 1) rest planes) := by
  intro env
  constructor
  · have hflag : (initDrmResources env).1 = (initPlanes env).1 := by
      unfold initDrmResources
      cases env.resources <;> rfl
    rw [hflag]
    unfold initPlanes
    cases hcap : env.atomicCapOk
    · simp
    · cases hres : env.planeResources with
      | none => simp
      | some specs =>
        by_cases hemp : survivingPlanes (some specs) = []
        · simp only [hemp, List.isEmpty_nil, if_pos, hres]
          simp [hemp]
        · have : (survivingPlanes (some specs)).isEmpty = false := by
            simpa [List.isEmpty_iff] using hemp
          simp only [this, Bool.false_eq_true, if_false, hres]
          simp [hemp]
  · intro crtcInitOk i crtcId rest planes hnone
    simp [buildCrtcs, hnone]

/-- Witness for C4's amended theorem: with the capability denied the flag
is false, and a CRTC with no primary-plane match is skipped. -/
theorem initDrmResources_atomic_flag_spec_witness :
    (initDrmResources ⟨false, none, none, fun _ => true⟩).1 = false ∧
    buildCrtcs true (fun _ => true) 1 [20] [planeOnlyCrtc0] =
      buildCrtcs true (fun _ => true) 2 [] [planeOnlyCrtc0] :=
  ⟨(initDrmResources_atomic_flag_spec ⟨false, none, none, fun _ => true⟩).1.mpr
      (Or.inl rfl),
   (initDrmResources_atomic_flag_spec ⟨false, none, none, fun _ => true⟩).2
      (fun _ => true) 1 20 [] [planeOnlyCrtc0] (by decide)⟩

/-! ### Claim C6 — lease grant validation and failure isolation -/

/-- Membership in the object-id accumulation of handleLeaseRequest: the
foldl over "output->addLeaseObjects(objects)" keeps everything already
accumulated and everything contributed by any later output. -/
theorem mem_leaseObjects_foldl (x : Nat) :
    ∀ (selected : List LeaseOutputL) (init : List Nat),
      x ∈ selected.foldl (fun acc o => acc ++ o.objects) init ↔
        x ∈ init ∨ ∃ o ∈ selected, x ∈ o.objects := by
  intro selected
  induction selected with
  | nil => simp
  | cons o os ih =>
    intro init
    simp only [List.foldl_cons, ih, List.mem_append, List.mem_cons]
    constructor
    · rintro ((h | h) | ⟨o2, h2, h3⟩)
      · exact Or.inl h
      · exact Or.inr ⟨o, Or.inl rfl, h⟩
      · exact Or.inr ⟨o2, Or.inr h2, h3⟩
    · rintro (h | ⟨o2, (rfl | h2), h3⟩)
      · exact Or.inl (Or.inl h)
      · exact Or.inl (Or.inr h3)
      · exact Or.inr ⟨o2, h2, h3⟩

/-- C6: the grant path of handleLeaseRequest selects exactly the
requested connectors that map to a known, currently-unleased lease
output; the single kernel lease covers every selected output's hardware
object ids; on kernel-lease failure the request is denied with the
lease-output state untouched (no other output disturbed); and an
already-leased output survives the request with its lease intact on
both paths (so a request naming only it is denied when the kernel
rejects the resulting object list). -/
theorem handleLeaseRequest_spec :
    ∀ (leaseOutputs requested : List LeaseOutputL)
      (kernelLease : List Nat → Option (Nat × Nat)),
      (∀ o, o ∈ leaseSelected leaseOutputs requested ↔
        o ∈ requested ∧ o ∈ leaseOutputs ∧ o.lease = none) ∧
      (∀ o ∈ leaseSelected leaseOutputs requested, ∀ x ∈ o.objects,
        x ∈ leaseObjects (leaseSelected leaseOutputs requested)) ∧
      (kernelLease (leaseObjects (leaseSelected leaseOutputs requested)) = none →
        handleLeaseRequest leaseOutputs kernelLease requested =
          (LeaseResponse.denied, leaseOutputs)) ∧
      (∀ o ∈ leaseOutputs, o.lease.isSome = true →
        o ∈ (handleLeaseRequest leaseOutputs kernelLease requested).2) := by
  intro leaseOutputs requested kernelLease
  have hsel : ∀ o, o ∈ leaseSelected leaseOutputs requested ↔
      o ∈ requested ∧ o ∈ leaseOutputs ∧ o.lease = none := by
    intro o
    simp [leaseSelected, List.mem_filter, Option.isNone_iff_eq_none, and_assoc]
  refine ⟨hsel, ?_, ?_, ?_⟩
  · intro o ho x hx
    exact (mem_leaseObjects_foldl x (leaseSelected leaseOutputs requested) []).mpr
      (Or.inr ⟨o, ho, hx⟩)
  · intro hfail
    simp [handleLeaseRequest, hfail]
  · intro o ho hleased
    have hno : o ∉ leaseSelected leaseOutputs requested := by
      intro hin
      rcases (hsel o).mp hin with ⟨h1, h2, h3⟩
      rw [h3] at hleased
      simp at hleased
    rcases hk : kernelLease (leaseObjects (leaseSelected leaseOutputs requested)) with
      _ | ⟨fd, lid⟩
    · simp [handleLeaseRequest, hk, ho]
    · simp only [handleLeaseRequest, hk, List.mem_map]
      exact ⟨o, ho, by simp [hno]⟩

/-- A lease output already holding a lease (lessee id 7) over hardware
objects 5, 6, 9. -/
def leasedOutput : LeaseOutputL := ⟨1, some 7, [5, 6, 9]⟩

/-- Witness for C6: a request naming only an already-leased output
selects nothing, and with the kernel rejecting the (empty) object list
the request is denied and the existing lease is untouched. -/
theorem handleLeaseRequest_spec_witness :
    handleLeaseRequest [leasedOutput] (fun _ => none) [leasedOutput] =
      (LeaseResponse.denied, [leasedOutput]) ∧
    leasedOutput ∈ (handleLeaseRequest [leasedOutput] (fun _ => none) [leasedOutput]).2 :=
  ⟨(handleLeaseRequest_spec [leasedOutput] [leasedOutput] (fun _ => none)).2.2.1 rfl,
   (handleLeaseRequest_spec [leasedOutput] [leasedOutput] (fun _ => none)).2.2.2
     leasedOutput (by decide) (by decide)⟩

/-! ### Claim C5 — base case and greedy-first acceptance of the search -/

/-- C5: when the negotiation search runs out of connectors or CRTCs it
commits the accumulated pipelines as one test transaction — the
accumulated set is returned exactly when the oracle accepts (an empty
accumulator is returned directly, which coincides with both outcomes),
and an empty result signals failure upward; one recursion step is the
encoder/CRTC double loop over branches, and the first branch returning
a non-empty result is accepted immediately while an empty (abandoned)
branch contributes none of its hypothesized pipelines. -/
theorem findWorkingCombination_base_and_greedy :
    (∀ (commit : List Pipeline → Bool) (atomic : Bool) (pipelines : List Pipeline)
       (connectors : List Connector) (crtcs : List Crtc),
       connectors = [] ∨ crtcs = [] →
       (commit pipelines = true →
         findWorkingCombination commit atomic pipelines connectors crtcs = pipelines) ∧
       (commit pipelines = false →
         findWorkingCombination commit atomic pipelines connectors crtcs = [])) ∧
    (∀ (commit : List Pipeline → Bool) (atomic : Bool) (pipelines : List Pipeline)
       (conn : Connector) (rest : List Connector) (c : Crtc) (cs : List Crtc),
       findWorkingCombination commit atomic pipelines (conn :: rest) (c :: cs) =
         firstNonEmpty
           (fun _ => firstNonEmpty
             (fun crtc => findWorkingCombination commit atomic (pipelines ++ [⟨conn, crtc⟩])
               rest ((if atomic then hintSort conn (c :: cs) else c :: cs).erase crtc))
             (if atomic then hintSort conn (c :: cs) else c :: cs))
           conn.encoders) ∧
    (∀ (g : Crtc → List Pipeline) (a : Crtc) (l : List Crtc),
       (g a ≠ [] → firstNonEmpty g (a :: l) = g a) ∧
       (g a = [] → firstNonEmpty g (a :: l) = firstNonEmpty g l)) := by
  refine ⟨?_, ?_, ?_⟩
  · intro commit atomic pipelines connectors crtcs hbase
    have hres : findWorkingCombination commit atomic pipelines connectors crtcs =
        if pipelines.isEmpty || commit pipelines then pipelines else [] := by
      rcases hbase with rfl | rfl
      · rfl
      · cases connectors <;> rfl
    constructor
    · intro hc
      rw [hres, hc]
      simp
    · intro hc
      rw [hres, hc]
      cases hp : pipelines.isEmpty
      · simp
      · simpa [List.isEmpty_iff] using hp
  · intro commit atomic pipelines conn rest c cs
    rfl
  · intro g a l
    constructor
    · intro h
      simp [firstNonEmpty, List.isEmpty_iff, h]
    · intro h
      simp [firstNonEmpty, h]

/-- Witness for C5: concrete base-case and greedy-first instances. -/
theorem findWorkingCombination_base_and_greedy_witness :
    findWorkingCombination (fun _ => false) false
        [⟨⟨1, [4], 0⟩, ⟨8⟩⟩] [] [⟨9⟩] = [] ∧
    firstNonEmpty (fun crtc => [(⟨⟨1, [4], 0⟩, crtc⟩ : Pipeline)]) [⟨8⟩, ⟨9⟩] =
      [⟨⟨1, [4], 0⟩, ⟨8⟩⟩] :=
  ⟨(findWorkingCombination_base_and_greedy.1 (fun _ => false) false
      [⟨⟨1, [4], 0⟩, ⟨8⟩⟩] [] [⟨9⟩] (Or.inl rfl)).2 rfl,
   (findWorkingCombination_base_and_greedy.2.2
      (fun crtc => [(⟨⟨1, [4], 0⟩, crtc⟩ : Pipeline)]) ⟨8⟩ [⟨9⟩]).1 (by decide)⟩

/-! ### Claim C3 — CRTC-id hint tie-break

The reorder half of the claim holds: in atomic mode the hinted CRTC is
moved to the front of the pool and tried first.  The binding half does
not hold unconditionally: the search backtracks, so when the test
commit rejects every combination that uses the hinted CRTC, the
produced pipeline binds the connector to a different CRTC.  It does
hold whenever the test commit accepts the greedy branch (below: for an
always-accepting commit oracle). -/

/-- The hint reorder of the CRTC pool is a permutation. -/
theorem hintSort_perm (conn : Connector) (crtcs : List Crtc) :
    List.Perm (hintSort conn crtcs) crtcs :=
  List.filter_append_perm _ crtcs

/-- With pairwise-distinct CRTC ids, the hint filter of the pool keeps
exactly the hinted CRTC. -/
theorem filter_hint_single (hint : Nat) :
    ∀ (crtcs : List Crtc) (X : Crtc), X ∈ crtcs → hint = X.id →
      (crtcs.map Crtc.id).Nodup →
      crtcs.filter (fun c => hint == c.id) = [X] := by
  intro crtcs
  induction crtcs with
  | nil =>
    intro X hX
    simp at hX
  | cons c cs ih =>
    intro X hX hhint hnodup
    rw [List.map_cons, List.nodup_cons] at hnodup
    rcases List.mem_cons.mp hX with rfl | hX2
    · subst hhint
      have hnil : cs.filter (fun d => X.id == d.id) = [] := by
        refine List.filter_eq_nil_iff.mpr ?_
        intro d hd hde
        apply hnodup.1
        rw [List.mem_map]
        refine ⟨d, hd, ?_⟩
        have hx : X.id = d.id := by simpa using hde
        exact hx.symm
      simp [List.filter_cons, hnil]
    · have hcne : ¬((hint == c.id) = true) := by
        simp only [beq_iff_eq]
        intro he
        apply hnodup.1
        rw [List.mem_map]
        exact ⟨X, hX2, by rw [← hhint, he]⟩
      simp only [List.filter_cons, if_neg hcne]
      exact ih X hX2 hhint hnodup.2

/-- Under an always-accepting commit oracle the search never backtracks:
whenever every connector has at least one encoder, the result extends
the accumulated pipeline list (the greedy-first branch wins). -/
theorem fwcAux_alwaysTrue_extends (atomic : Bool) :
    ∀ (fuel : Nat) (conns : List Connector) (pipelines : List Pipeline) (crtcs : List Crtc),
      conns.length ≤ fuel → (∀ c ∈ conns, c.encoders ≠ []) →
      ∃ tail, fwcAux (fun _ => true) atomic fuel conns pipelines crtcs = pipelines ++ tail := by
  intro fuel
  induction fuel with
  | zero =>
    intro conns pipelines crtcs hlen henc
    cases conns with
    | nil => exact ⟨[], by cases crtcs <;> simp [fwcAux]⟩
    | cons c cs => simp at hlen
  | succ fuel ih =>
    intro conns pipelines crtcs hlen henc
    cases conns with
    | nil => exact ⟨[], by cases crtcs <;> simp [fwcAux]⟩
    | cons conn rest =>
      cases crtcs with
      | nil => exact ⟨[], by simp [fwcAux]⟩
      | cons c cs =>
        obtain ⟨e, es, henc_eq⟩ : ∃ e es, conn.encoders = e :: es := by
          cases h : conn.encoders with
          | nil => exact absurd h (henc conn (by simp))
          | cons e es => exact ⟨e, es, rfl⟩
        obtain ⟨s0, ss, hs⟩ :
            ∃ s0 ss, (if atomic then hintSort conn (c :: cs) else c :: cs) = s0 :: ss := by
          have hlen2 : (if atomic then hintSort conn (c :: cs) else c :: cs).length =
              (c :: cs).length := by
            cases atomic
            · rfl
            · simpa using (hintSort_perm conn (c :: cs)).length_eq
          cases hsv : (if atomic then hintSort conn (c :: cs) else c :: cs) with
          | nil => rw [hsv] at hlen2; simp at hlen2
          | cons a b => exact ⟨a, b, rfl⟩
        obtain ⟨tail, htail⟩ := ih rest (pipelines ++ [⟨conn, s0⟩])
          ((if atomic then hintSort conn (c :: cs) else c :: cs).erase s0)
          (Nat.le_of_succ_le_succ hlen)
          (fun x hx => henc x (List.mem_cons_of_mem _ hx))
        refine ⟨⟨conn, s0⟩ :: tail, ?_⟩
        have hbody : fwcAux (fun _ => true) atomic (fuel + 1) (conn :: rest) pipelines (c :: cs) =
            firstNonEmpty
              (fun _ => firstNonEmpty
                (fun crtc => fwcAux (fun _ => true) atomic fuel rest (pipelines ++ [⟨conn, crtc⟩])
                  ((if atomic then hintSort conn (c :: cs) else c :: cs).erase crtc))
                (if atomic then hintSort conn (c :: cs) else c :: cs))
              conn.encoders := rfl
        rw [hbody, henc_eq, hs]
        have hbr : fwcAux (fun _ => true) atomic fuel rest (pipelines ++ [⟨conn, s0⟩])
            ((s0 :: ss).erase s0) = (pipelines ++ [⟨conn, s0⟩]) ++ tail := by
          rw [← hs]
          exact htail
        simp only [firstNonEmpty, hbr]
        simp

/-- A connector hinted at CRTC 11, with one encoder. -/
def hintConn : Connector := ⟨1, [100], 11⟩

/-- The hinted CRTC (id 11). -/
def hintCrtcX : Crtc := ⟨11⟩

/-- A second, free CRTC (id 12). -/
def hintCrtcY : Crtc := ⟨12⟩

/-- A commit oracle (hardware test-commit behaviour) that rejects every
combination using CRTC 11. -/
def rejectCrtc11 : List Pipeline → Bool := fun ps => ps.all (fun p => !(p.crtc.id == 11))

/-- Counterexample to C3 as stated: the connector hints at CRTC 11,
which is present and free (and the reorder does put it first), yet when
the test commit rejects the hinted branch the search produces a
pipeline binding the connector to CRTC 12 instead — the claim's
unconditional "produces a pipeline binding that connector to X" fails
on the code, which backtracks past the hint. -/
theorem findWorkingCombination_hint_not_always_bound :
    hintConn.crtcHint = hintCrtcX.id ∧
    hintCrtcX ∈ [hintCrtcX, hintCrtcY] ∧
    hintSort hintConn [hintCrtcX, hintCrtcY] = [hintCrtcX, hintCrtcY] ∧
    findWorkingCombination rejectCrtc11 true [] [hintConn] [hintCrtcX, hintCrtcY] =
      [⟨hintConn, hintCrtcY⟩] ∧
    hintCrtcY ≠ hintCrtcX := by
  decide

/-- C3 (amended): in atomic mode, for a connector whose CRTC-id hint
names a CRTC X present in the pool (CRTC ids pairwise distinct), the
negotiation engine reorders the pool to put X first, and whenever the
test commit accepts the greedy branch (here: an always-accepting
oracle, with every connector exposing at least one encoder) the first
produced pipeline binds that connector to X. -/
theorem findWorkingCombination_hint_tried_first
    (conn : Connector) (rest : List Connector) (crtcs : List Crtc) (X : Crtc)
    (hX : X ∈ crtcs) (hhint : conn.crtcHint = X.id)
    (hnodup : (crtcs.map Crtc.id).Nodup)
    (henc : ∀ c ∈ conn :: rest, c.encoders ≠ []) :
    (hintSort conn crtcs).head? = some X ∧
    (findWorkingCombination (fun _ => true) true [] (conn :: rest) crtcs).head? =
      some ⟨conn, X⟩ := by
  have hfilter : crtcs.filter (fun c => conn.crtcHint == c.id) = [X] :=
    filter_hint_single conn.crtcHint crtcs X hX hhint hnodup
  have hsort : hintSort conn crtcs =
      X :: crtcs.filter (fun c => !(conn.crtcHint == c.id)) := by
    rw [hintSort, hfilter]
    rfl
  refine ⟨by rw [hsort]; rfl, ?_⟩
  cases crtcs with
  | nil => simp at hX
  | cons c cs =>
    obtain ⟨e, es, henc_eq⟩ : ∃ e es, conn.encoders = e :: es := by
      cases h : conn.encoders with
      | nil => exact absurd h (henc conn (by simp))
      | cons e es => exact ⟨e, es, rfl⟩
    obtain ⟨tail, htail⟩ := fwcAux_alwaysTrue_extends true rest.length rest
      ([] ++ [⟨conn, X⟩]) (((c :: cs).filter (fun d => !(conn.crtcHint == d.id))))
      (Nat.le_refl _) (fun x hx => henc x (List.mem_cons_of_mem _ hx))
    have hbody : findWorkingCombination (fun _ => true) true [] (conn :: rest) (c :: cs) =
        firstNonEmpty
          (fun _ => firstNonEmpty
            (fun crtc => fwcAux (fun _ => true) true rest.length rest ([] ++ [⟨conn, crtc⟩])
              ((hintSort conn (c :: cs)).erase crtc))
            (hintSort conn (c :: cs)))
          conn.encoders := rfl
    rw [hbody, henc_eq, hsort]
    have herase : (X :: (c :: cs).filter (fun d => !(conn.crtcHint == d.id))).erase X =
        (c :: cs).filter (fun d => !(conn.crtcHint == d.id)) := by
      rw [List.erase_cons_head]
    simp only [firstNonEmpty, herase, htail]
    simp

/-- Witness for C3's amended theorem: the hinted CRTC is moved to the
front from the back of the pool and the produced head pipeline binds it. -/
theorem findWorkingCombination_hint_tried_first_witness :
    (hintSort hintConn [hintCrtcY, hintCrtcX]).head? = some hintCrtcX ∧
    (findWorkingCombination (fun _ => true) true [] [hintConn] [hintCrtcY, hintCrtcX]).head? =
      some ⟨hintConn, hintCrtcX⟩ :=
  findWorkingCombination_hint_tried_first hintConn [] [hintCrtcY, hintCrtcX] hintCrtcX
    (by decide) (by decide) (by decide) (by decide)

/-! ### Claim C2 — pairwise-disjoint connector/CRTC bindings -/

/-- Case analysis on the early-return loop: the result is empty or the
value of some branch in the list. -/
theorem firstNonEmpty_cases (f : α → List β) :
    ∀ l : List α, firstNonEmpty f l = [] ∨ ∃ a ∈ l, firstNonEmpty f l = f a := by
  intro l
  induction l with
  | nil => exact Or.inl rfl
  | cons a l ih =>
    by_cases h : (f a).isEmpty = true
    · rcases ih with h2 | ⟨b, hb, h3⟩
      · exact Or.inl (by simp [firstNonEmpty, h, h2])
      · exact Or.inr ⟨b, by simp [hb], by simp [firstNonEmpty, h, h3]⟩
    · exact Or.inr ⟨a, by simp, by simp [firstNonEmpty, h]⟩

theorem mem_sortedPool {atomic : Bool} {conn : Connector} {crtcs : List Crtc} {x : Crtc}
    (hx : x ∈ (if atomic then hintSort conn crtcs else crtcs)) : x ∈ crtcs := by
  cases atomic
  · simpa using hx
  · exact (hintSort_perm conn crtcs).subset (by simpa using hx)

theorem fwcAux_mem (commit : List Pipeline → Bool) (atomic : Bool) :
    ∀ (fuel : Nat) (conns : List Connector) (pipelines : List Pipeline) (crtcs : List Crtc)
      (p : Pipeline), p ∈ fwcAux commit atomic fuel conns pipelines crtcs →
      p ∈ pipelines ∨ (p.connector ∈ conns ∧ p.crtc ∈ crtcs) := by
  have hbase : ∀ (pipelines : List Pipeline) (p : Pipeline),
      p ∈ (if pipelines.isEmpty || commit pipelines then pipelines else []) →
      p ∈ pipelines := by
    intro pipelines p hp
    split at hp
    · exact hp
    · simp at hp
  intro fuel
  induction fuel with
  | zero =>
    intro conns pipelines crtcs p hp
    cases conns with
    | nil => exact Or.inl (hbase pipelines p hp)
    | cons conn rest =>
      cases crtcs with
      | nil => exact Or.inl (hbase pipelines p hp)
      | cons c cs => simp [fwcAux] at hp
  | succ fuel ih =>
    intro conns pipelines crtcs p hp
    cases conns with
    | nil => exact Or.inl (hbase pipelines p hp)
    | cons conn rest =>
      cases crtcs with
      | nil => exact Or.inl (hbase pipelines p hp)
      | cons c cs =>
        have hbody : fwcAux commit atomic (fuel + 1) (conn :: rest) pipelines (c :: cs) =
            firstNonEmpty
              (fun _ => firstNonEmpty
                (fun crtc => fwcAux commit atomic fuel rest (pipelines ++ [⟨conn, crtc⟩])
                  ((if atomic then hintSort conn (c :: cs) else c :: cs).erase crtc))
                (if atomic then hintSort conn (c :: cs) else c :: cs))
              conn.encoders := rfl
        rw [hbody] at hp
        rcases firstNonEmpty_cases _ conn.encoders with hnil | ⟨e, he, heq⟩
        · rw [hnil] at hp
          simp at hp
        · rw [heq] at hp
          rcases firstNonEmpty_cases _ (if atomic then hintSort conn (c :: cs) else c :: cs)
            with hnil2 | ⟨crtc0, hcrtc0, heq2⟩
          · rw [hnil2] at hp
            simp at hp
          · rw [heq2] at hp
            rcases ih rest (pipelines ++ [⟨conn, crtc0⟩])
              ((if atomic then hintSort conn (c :: cs) else c :: cs).erase crtc0) p hp with
              hmem | ⟨hc, hcr⟩
            · rcases List.mem_append.mp hmem with hmem1 | hmem2
              · exact Or.inl hmem1
              · have hpe : p = ⟨conn, crtc0⟩ := by simpa using hmem2
                subst hpe
                exact Or.inr ⟨by simp, mem_sortedPool hcrtc0⟩
            · exact Or.inr ⟨List.mem_cons_of_mem _ hc,
                mem_sortedPool (List.mem_of_mem_erase hcr)⟩

theorem fwcAux_nodup (commit : List Pipeline → Bool) (atomic : Bool) :
    ∀ (fuel : Nat) (conns : List Connector) (pipelines : List Pipeline) (crtcs : List Crtc),
      ((pipelines.map fun p => p.connector.id) ++ conns.map Connector.id).Nodup →
      ((pipelines.map fun p => p.crtc.id) ++ crtcs.map Crtc.id).Nodup →
      ((fwcAux commit atomic fuel conns pipelines crtcs).map fun p => p.connector.id).Nodup ∧
      ((fwcAux commit atomic fuel conns pipelines crtcs).map fun p => p.crtc.id).Nodup := by
  have hb : ∀ (ps : List Pipeline),
      ((ps.map fun p => p.connector.id)).Nodup → ((ps.map fun p => p.crtc.id)).Nodup →
      (((if ps.isEmpty || commit ps then ps else []).map fun p => p.connector.id).Nodup ∧
       ((if ps.isEmpty || commit ps then ps else []).map fun p => p.crtc.id).Nodup) := by
    intro ps h1 h2
    split
    · exact ⟨h1, h2⟩
    · simp
  intro fuel
  induction fuel with
  | zero =>
    intro conns pipelines crtcs h1 h2
    cases conns with
    | nil => exact hb pipelines h1.of_append_left h2.of_append_left
    | cons conn rest =>
      cases crtcs with
      | nil => exact hb pipelines h1.of_append_left h2.of_append_left
      | cons c cs => simp [fwcAux]
  | succ fuel ih =>
    intro conns pipelines crtcs h1 h2
    cases conns with
    | nil => exact hb pipelines h1.of_append_left h2.of_append_left
    | cons conn rest =>
      cases crtcs with
      | nil => exact hb pipelines h1.of_append_left h2.of_append_left
      | cons c cs =>
        have hbody : fwcAux commit atomic (fuel + 1) (conn :: rest) pipelines (c :: cs) =
            firstNonEmpty
              (fun _ => firstNonEmpty
                (fun crtc => fwcAux commit atomic fuel rest (pipelines ++ [⟨conn, crtc⟩])
                  ((if atomic then hintSort conn (c :: cs) else c :: cs).erase crtc))
                (if atomic then hintSort conn (c :: cs) else c :: cs))
              conn.encoders := rfl
        rw [hbody]
        rcases firstNonEmpty_cases _ conn.encoders with hnil | ⟨e, he, heq⟩
        · rw [hnil]
          simp
        · rw [heq]
          rcases firstNonEmpty_cases _ (if atomic then hintSort conn (c :: cs) else c :: cs)
            with hnil2 | ⟨crtc0, hcrtc0, heq2⟩
          · rw [hnil2]
            simp
          · rw [heq2]
            have h1' : (((pipelines ++ [Pipeline.mk conn crtc0]).map fun p => p.connector.id) ++
                rest.map Connector.id).Nodup := by
              simpa [List.append_assoc] using h1
            have hsortperm :
                List.Perm (if atomic then hintSort conn (c :: cs) else c :: cs) (c :: cs) := by
              cases atomic
              · simp
              · simpa using hintSort_perm conn (c :: cs)
            have hpool : List.Perm ((c :: cs).map Crtc.id)
                (crtc0.id ::
                  ((if atomic then hintSort conn (c :: cs) else c :: cs).erase crtc0).map
                    Crtc.id) := by
              have h3 := List.perm_cons_erase hcrtc0
              have h4 := (hsortperm.symm.trans h3).map Crtc.id
              simpa using h4
            have h2' : (((pipelines ++ [Pipeline.mk conn crtc0]).map fun p => p.crtc.id) ++
                ((if atomic then hintSort conn (c :: cs) else c :: cs).erase crtc0).map
                  Crtc.id).Nodup := by
              have hperm : List.Perm
                  ((pipelines.map fun p => p.crtc.id) ++ (c :: cs).map Crtc.id)
                  (((pipelines ++ [Pipeline.mk conn crtc0]).map fun p => p.crtc.id) ++
                    ((if atomic then hintSort conn (c :: cs) else c :: cs).erase crtc0).map
                      Crtc.id) := by
                have hstep := List.Perm.append_left (pipelines.map fun p => p.crtc.id) hpool
                refine hstep.trans ?_
                simp [List.append_assoc]
              exact hperm.nodup h2
            exact ih rest (pipelines ++ [Pipeline.mk conn crtc0])
              ((if atomic then hintSort conn (c :: cs) else c :: cs).erase crtc0) h1' h2'

/-- C2: with pairwise-distinct connector ids and CRTC ids (kernel object
ids are unique per device), no two pipelines returned by the
negotiation search share a connector and no two share a CRTC: each
recursion level appends one pipeline for the chosen connector, removes
that connector from the connector list and the chosen CRTC from the
pool before recursing. -/
theorem findWorkingCombination_unique_bindings
    (commit : List Pipeline → Bool) (atomic : Bool) (conns : List Connector)
    (crtcs : List Crtc)
    (hconn : (conns.map Connector.id).Nodup) (hcrtc : (crtcs.map Crtc.id).Nodup) :
    ((findWorkingCombination commit atomic [] conns crtcs).map
      fun p => p.connector.id).Nodup ∧
    ((findWorkingCombination commit atomic [] conns crtcs).map fun p => p.crtc.id).Nodup :=
  fwcAux_nodup commit atomic conns.length conns [] crtcs (by simpa using hconn)
    (by simpa using hcrtc)

/-- Witness for C2: two connectors and two CRTCs with distinct ids give
a configuration with pairwise-distinct connector and CRTC bindings. -/
theorem findWorkingCombination_unique_bindings_witness :
    ((findWorkingCombination (fun _ => true) true []
        [⟨1, [100], 11⟩, ⟨2, [200], 0⟩] [⟨11⟩, ⟨12⟩]).map
      fun p => p.connector.id).Nodup ∧
    ((findWorkingCombination (fun _ => true) true []
        [⟨1, [100], 11⟩, ⟨2, [200], 0⟩] [⟨11⟩, ⟨12⟩]).map fun p => p.crtc.id).Nodup :=
  findWorkingCombination_unique_bindings (fun _ => true) true
    [⟨1, [100], 11⟩, ⟨2, [200], 0⟩] [⟨11⟩, ⟨12⟩] (by decide) (by decide)

/-! ### Claim C7 — leased resources are excluded from negotiation -/

/-- Erasing an element from a list with pairwise-distinct keys (and
whose members are determined by their key) removes its key entirely. -/
theorem erase_key_not_mem {α : Type} [DecidableEq α] (f : α → Nat) (a : α) (l : List α)
    (hfaith : ∀ c ∈ l, f c = f a → c = a) (hnodup : (l.map f).Nodup) :
    f a ∉ (l.erase a).map f := by
  intro hmem
  rw [List.mem_map] at hmem
  obtain ⟨c, hc, hfc⟩ := hmem
  by_cases hal : a ∈ l
  · have hl : l.Nodup := hnodup.of_map
    have h2 := (List.Nodup.mem_erase_iff hl).mp hc
    exact h2.1 (hfaith c h2.2 hfc)
  · rw [List.erase_of_not_mem hal] at hc
    have hca := hfaith c hc hfc
    subst hca
    exact hal hc

theorem excludeLeased_conn_sublist :
    ∀ (los : List LeaseOutputM) (acc : List Connector × List Crtc × List Pipeline),
      List.Sublist (excludeLeased los acc).1 acc.1 := by
  intro los
  induction los with
  | nil =>
    intro acc
    exact List.Sublist.refl _
  | cons lo rest ih =>
    intro acc
    have hstep_eq : excludeLeased (lo :: rest) acc = excludeLeased rest
        (if lo.hasLease then
          (acc.1.erase lo.pipeline.connector, acc.2.1.erase lo.pipeline.crtc, acc.2.2)
        else (acc.1, acc.2.1, acc.2.2.erase lo.pipeline)) := rfl
    rw [hstep_eq]
    refine (ih _).trans ?_
    cases hl : lo.hasLease
    · simp only [Bool.false_eq_true, if_false]
      exact List.Sublist.refl _
    · rw [if_pos rfl]
      exact List.erase_sublist _ _

theorem excludeLeased_crtc_sublist :
    ∀ (los : List LeaseOutputM) (acc : List Connector × List Crtc × List Pipeline),
      List.Sublist (excludeLeased los acc).2.1 acc.2.1 := by
  intro los
  induction los with
  | nil =>
    intro acc
    exact List.Sublist.refl _
  | cons lo rest ih =>
    intro acc
    have hstep_eq : excludeLeased (lo :: rest) acc = excludeLeased rest
        (if lo.hasLease then
          (acc.1.erase lo.pipeline.connector, acc.2.1.erase lo.pipeline.crtc, acc.2.2)
        else (acc.1, acc.2.1, acc.2.2.erase lo.pipeline)) := rfl
    rw [hstep_eq]
    refine (ih _).trans ?_
    cases hl : lo.hasLease
    · simp only [Bool.false_eq_true, if_false]
      exact List.Sublist.refl _
    · rw [if_pos rfl]
      exact List.erase_sublist _ _

theorem excludeLeased_excludes (lo : LeaseOutputM) (hlease : lo.hasLease = true) :
    ∀ (los : List LeaseOutputM) (acc : List Connector × List Crtc × List Pipeline),
      lo ∈ los →
      (∀ c ∈ acc.1, c.id = lo.pipeline.connector.id → c = lo.pipeline.connector) →
      (acc.1.map Connector.id).Nodup →
      (∀ x ∈ acc.2.1, x.id = lo.pipeline.crtc.id → x = lo.pipeline.crtc) →
      (acc.2.1.map Crtc.id).Nodup →
      lo.pipeline.connector.id ∉ (excludeLeased los acc).1.map Connector.id ∧
      lo.pipeline.crtc.id ∉ (excludeLeased los acc).2.1.map Crtc.id := by
  intro los
  induction los with
  | nil =>
    intro acc h
    simp at h
  | cons lo2 rest ih =>
    intro acc hmem hfc hnc hfx hnx
    have hstep_eq : excludeLeased (lo2 :: rest) acc = excludeLeased rest
        (if lo2.hasLease then
          (acc.1.erase lo2.pipeline.connector, acc.2.1.erase lo2.pipeline.crtc, acc.2.2)
        else (acc.1, acc.2.1, acc.2.2.erase lo2.pipeline)) := rfl
    rcases List.mem_cons.mp hmem with rfl | hmem2
    · rw [hstep_eq, if_pos hlease]
      have h1 : lo.pipeline.connector.id ∉
          (acc.1.erase lo.pipeline.connector).map Connector.id :=
        erase_key_not_mem Connector.id lo.pipeline.connector acc.1 hfc hnc
      have h2 : lo.pipeline.crtc.id ∉
          (acc.2.1.erase lo.pipeline.crtc).map Crtc.id :=
        erase_key_not_mem Crtc.id lo.pipeline.crtc acc.2.1 hfx hnx
      constructor
      · intro hbad
        exact h1 (((excludeLeased_conn_sublist rest _).map Connector.id).subset hbad)
      · intro hbad
        exact h2 (((excludeLeased_crtc_sublist rest _).map Crtc.id).subset hbad)
    · rw [hstep_eq]
      cases hl2 : lo2.hasLease
      · simp only [Bool.false_eq_true, if_false]
        exact ih _ hmem2 hfc hnc hfx hnx
      · rw [if_pos rfl]
        refine ih _ hmem2 ?_ ?_ ?_ ?_
        · intro c hc hcid
          exact hfc c (List.mem_of_mem_erase hc) hcid
        · exact List.Nodup.sublist ((List.erase_sublist _ _).map Connector.id) hnc
        · intro x hx hxid
          exact hfx x (List.mem_of_mem_erase hx) hxid
        · exact List.Nodup.sublist ((List.erase_sublist _ _).map Crtc.id) hnx

theorem insertByHintDesc_perm (c : Connector) :
    ∀ l : List Connector, List.Perm (insertByHintDesc c l) (c :: l) := by
  intro l
  induction l with
  | nil => simp [insertByHintDesc]
  | cons d ds ih =>
    rw [insertByHintDesc]
    split
    · exact List.Perm.refl _
    · exact (ih.cons d).trans (List.Perm.swap c d ds)

theorem sortConnectorsDesc_perm :
    ∀ conns : List Connector, List.Perm (sortConnectorsDesc conns) conns := by
  intro conns
  induction conns with
  | nil => simp [sortConnectorsDesc]
  | cons c cs ih =>
    have heq : sortConnectorsDesc (c :: cs) = insertByHintDesc c (sortConnectorsDesc cs) := rfl
    rw [heq]
    exact (insertByHintDesc_perm c _).trans (ih.cons c)

/-- C7: every lease output holding an active lease has its pipeline's
connector removed from the connector list and its pipeline's CRTC
removed from the CRTC pool before the negotiation search starts (under
per-device uniqueness of kernel object ids, carried as Nodup and
id-faithfulness hypotheses), and consequently no pipeline produced by
the search uses that connector or CRTC. -/
theorem updateOutputs_leased_resources_excluded
    (commit : List Pipeline → Bool) (atomic : Bool) (drmOutputs : List DrmOutputM)
    (leaseOutputs : List LeaseOutputM) (pipelines0 : List Pipeline)
    (connectedConnectors : List Connector) (crtcs0 : List Crtc) (lo : LeaseOutputM)
    (hmem : lo ∈ leaseOutputs) (hlease : lo.hasLease = true)
    (hfc : ∀ c ∈ connectedConnectors, c.id = lo.pipeline.connector.id →
      c = lo.pipeline.connector)
    (hnc : (connectedConnectors.map Connector.id).Nodup)
    (hfx : ∀ x ∈ crtcs0, x.id = lo.pipeline.crtc.id → x = lo.pipeline.crtc)
    (hnx : (crtcs0.map Crtc.id).Nodup) :
    lo.pipeline.connector.id ∉
      (searchConnectors atomic drmOutputs leaseOutputs pipelines0 connectedConnectors
        crtcs0).map Connector.id ∧
    lo.pipeline.crtc.id ∉
      (searchCrtcs atomic drmOutputs leaseOutputs pipelines0 connectedConnectors
        crtcs0).map Crtc.id ∧
    ∀ p ∈ findWorkingCombination commit atomic []
        (searchConnectors atomic drmOutputs leaseOutputs pipelines0 connectedConnectors crtcs0)
        (searchCrtcs atomic drmOutputs leaseOutputs pipelines0 connectedConnectors crtcs0),
      p.connector.id ≠ lo.pipeline.connector.id ∧ p.crtc.id ≠ lo.pipeline.crtc.id := by
  have hperm : List.Perm (if atomic then sortConnectorsDesc connectedConnectors
      else connectedConnectors) connectedConnectors := by
    cases atomic
    · simp
    · simpa using sortConnectorsDesc_perm connectedConnectors
  have hfc2 : ∀ c ∈ (if atomic then sortConnectorsDesc connectedConnectors
      else connectedConnectors), c.id = lo.pipeline.connector.id →
      c = lo.pipeline.connector :=
    fun c hc => hfc c (hperm.subset hc)
  have hnc2 : ((if atomic then sortConnectorsDesc connectedConnectors
      else connectedConnectors).map Connector.id).Nodup :=
    ((hperm.map Connector.id).nodup_iff).mpr hnc
  have hmain := excludeLeased_excludes lo hlease leaseOutputs
    (if atomic then sortConnectorsDesc connectedConnectors else connectedConnectors,
     crtcs0, removePipelines pipelines0 (drmOutputs.map (·.pipeline)))
    hmem hfc2 hnc2 hfx hnx
  refine ⟨hmain.1, hmain.2, ?_⟩
  intro p hp
  rcases fwcAux_mem commit atomic _ _ [] _ p hp with habs | ⟨hc, hx⟩
  · simp at habs
  constructor
  · intro he
    apply hmain.1
    rw [← he]
    exact List.mem_map_of_mem Connector.id hc
  · intro he
    apply hmain.2
    rw [← he]
    exact List.mem_map_of_mem Crtc.id hx

/-- A lease output holding an active lease on connector 1 and CRTC 7. -/
def exampleLeasedOutput : LeaseOutputM := ⟨⟨⟨1, [5], 0⟩, ⟨7⟩⟩, true⟩

/-- Witness for C7: the leased connector id and CRTC id are absent from
the search lists handed to the negotiation engine. -/
theorem updateOutputs_leased_resources_excluded_witness :
    exampleLeasedOutput.pipeline.connector.id ∉
      (searchConnectors false [] [exampleLeasedOutput] []
        [⟨1, [5], 0⟩, ⟨2, [6], 0⟩] [⟨7⟩, ⟨8⟩]).map Connector.id ∧
    exampleLeasedOutput.pipeline.crtc.id ∉
      (searchCrtcs false [] [exampleLeasedOutput] []
        [⟨1, [5], 0⟩, ⟨2, [6], 0⟩] [⟨7⟩, ⟨8⟩]).map Crtc.id :=
  ⟨(updateOutputs_leased_resources_excluded (fun _ => true) false [] [exampleLeasedOutput]
      [] [⟨1, [5], 0⟩, ⟨2, [6], 0⟩] [⟨7⟩, ⟨8⟩] exampleLeasedOutput (by decide) (by decide)
      (by decide) (by decide) (by decide) (by decide)).1,
   (updateOutputs_leased_resources_excluded (fun _ => true) false [] [exampleLeasedOutput]
      [] [⟨1, [5], 0⟩, ⟨2, [6], 0⟩] [⟨7⟩, ⟨8⟩] exampleLeasedOutput (by decide) (by decide)
      (by decide) (by decide) (by decide) (by decide)).2.1⟩

/-! ### Claim C1 — rollback restores the pipeline set -/

/-- Removing a sub-multiset and appending it back is a permutation. -/
theorem diff_append_perm_of_subperm {α : Type} [DecidableEq α] {l2 l : List α}
    (h : List.Subperm l2 l) : List.Perm (l.diff l2 ++ l2) l := by
  rw [← Multiset.coe_eq_coe]
  show ((l.diff l2 : List α) : Multiset α) + (l2 : Multiset α) = (l : Multiset α)
  rw [← Multiset.coe_sub]
  exact tsub_add_cancel_of_le (Multiset.coe_le.mpr h)

theorem excludeLeased_pipelines_eq :
    ∀ (los : List LeaseOutputM) (acc : List Connector × List Crtc × List Pipeline),
      (excludeLeased los acc).2.2 =
        removePipelines acc.2.2 ((los.filter (fun lo => !lo.hasLease)).map (·.pipeline)) := by
  intro los
  induction los with
  | nil =>
    intro acc
    rfl
  | cons lo rest ih =>
    intro acc
    have hstep_eq : excludeLeased (lo :: rest) acc = excludeLeased rest
        (if lo.hasLease then
          (acc.1.erase lo.pipeline.connector, acc.2.1.erase lo.pipeline.crtc, acc.2.2)
        else (acc.1, acc.2.1, acc.2.2.erase lo.pipeline)) := rfl
    rw [hstep_eq]
    cases hl : lo.hasLease
    · simp only [Bool.false_eq_true, if_false]
      rw [ih, List.filter_cons]
      simp [hl, removePipelines]
    · rw [if_pos rfl, ih, List.filter_cons]
      simp [hl]

theorem removePipelines_append (ps a b : List Pipeline) :
    removePipelines (removePipelines ps a) b = removePipelines ps (a ++ b) := by
  simp [removePipelines, List.foldl_append]

theorem removePipelines_eq_diff (ps rem : List Pipeline) :
    removePipelines ps rem = ps.diff rem := by
  rw [removePipelines, List.diff_eq_foldl]

/-- C1: when the negotiation search returns an empty result while the
post-exclusion connector list is non-empty, updateOutputs rolls back:
the accepted configuration is exactly the stashed old pipelines (each
re-attached to its output by the code) followed by the unleased lease
outputs' pipelines, and the resulting device pipeline set is a
permutation of the pre-refresh set — no partial state.  The subperm
hypothesis is the device invariant that every output-owned and
unleased-lease pipeline lives in m_pipelines. -/
theorem updateOutputs_rollback_restores_pipelines
    (commit : List Pipeline → Bool) (atomic : Bool) (drmOutputs : List DrmOutputM)
    (leaseOutputs : List LeaseOutputM) (pipelines0 : List Pipeline)
    (connectedConnectors : List Connector) (crtcs0 : List Crtc)
    (hempty : findWorkingCombination commit atomic []
        (searchConnectors atomic drmOutputs leaseOutputs pipelines0 connectedConnectors crtcs0)
        (searchCrtcs atomic drmOutputs leaseOutputs pipelines0 connectedConnectors crtcs0)
        = [])
    (hne : searchConnectors atomic drmOutputs leaseOutputs pipelines0 connectedConnectors
        crtcs0 ≠ [])
    (hsub : List.Subperm (rollbackConfig drmOutputs leaseOutputs) pipelines0) :
    List.Perm (updatePipelines commit atomic drmOutputs leaseOutputs pipelines0
        connectedConnectors crtcs0).1 pipelines0 ∧
    (updatePipelines commit atomic drmOutputs leaseOutputs pipelines0
        connectedConnectors crtcs0).2 = rollbackConfig drmOutputs leaseOutputs := by
  have hcond : ((findWorkingCombination commit atomic []
      (searchConnectors atomic drmOutputs leaseOutputs pipelines0 connectedConnectors crtcs0)
      (searchCrtcs atomic drmOutputs leaseOutputs pipelines0 connectedConnectors
        crtcs0)).isEmpty &&
      !(searchConnectors atomic drmOutputs leaseOutputs pipelines0 connectedConnectors
        crtcs0).isEmpty) = true := by
    rw [hempty]
    simp [List.isEmpty_iff, hne]
  have hupd : updatePipelines commit atomic drmOutputs leaseOutputs pipelines0
      connectedConnectors crtcs0 =
      (strippedPipelines atomic drmOutputs leaseOutputs pipelines0 connectedConnectors crtcs0
        ++ rollbackConfig drmOutputs leaseOutputs, rollbackConfig drmOutputs leaseOutputs) := by
    simp only [updatePipelines]
    rw [if_pos hcond]
  have hstr : strippedPipelines atomic drmOutputs leaseOutputs pipelines0 connectedConnectors
      crtcs0 = pipelines0.diff (rollbackConfig drmOutputs leaseOutputs) := by
    unfold strippedPipelines rollbackConfig
    rw [excludeLeased_pipelines_eq]
    show removePipelines (removePipelines pipelines0 (drmOutputs.map (·.pipeline)))
        ((leaseOutputs.filter (fun lo => !lo.hasLease)).map (·.pipeline)) = _
    rw [removePipelines_append, removePipelines_eq_diff]
  refine ⟨?_, by rw [hupd]⟩
  rw [hupd]
  show List.Perm (strippedPipelines atomic drmOutputs leaseOutputs pipelines0
    connectedConnectors crtcs0 ++ rollbackConfig drmOutputs leaseOutputs) pipelines0
  rw [hstr]
  exact diff_append_perm_of_subperm hsub

/-- The single old pipeline of the witness rollback scenario. -/
def rbPipe : Pipeline := ⟨⟨2, [9], 0⟩, ⟨5⟩⟩

/-- A desktop output that owns rbPipe before the refresh. -/
def rbOut : DrmOutputM := ⟨0, rbPipe⟩

/-- Witness for C1: a refresh whose search fails (the only candidate
connector exposes no encoder) with one desktop connector requested
restores the device pipeline set [rbPipe] unchanged. -/
theorem updateOutputs_rollback_restores_pipelines_witness :
    List.Perm (updatePipelines (fun _ => true) false [rbOut] [] [rbPipe]
        [⟨1, [], 0⟩] [⟨5⟩]).1 [rbPipe] ∧
    (updatePipelines (fun _ => true) false [rbOut] [] [rbPipe]
        [⟨1, [], 0⟩] [⟨5⟩]).2 = rollbackConfig [rbOut] [] :=
  updateOutputs_rollback_restores_pipelines (fun _ => true) false [rbOut] [] [rbPipe]
    [⟨1, [], 0⟩] [⟨5⟩] (by decide) (by decide) (List.Perm.refl _).subperm
